import Mathlib

/-!
Verification development for the taskflowb backend: a shallow embedding of
the task/user data model, the route handlers of `src/routes/dashboard.js`
(canonical, priority-bearing revision, plus the earlier keyword-escaping
revision of the search route), the Mongoose schema middleware of the Task
model, and the auth routes of `src/routes/auth.js`.

The document store is modelled as a `List Task` (respectively `List User`);
Mongoose queries become list traversals that honour first-match semantics
(`findOne`, `findOneAndUpdate`, `findOneAndDelete` act on the first matching
document).  Timestamps are `Int`, identifiers are `Nat`.
-/

namespace TaskFlow

/-- Task status enumeration, stored as the strings Todo, In Progress, Done. -/
inductive Status where
  | todo
  | inProgress
  | done
deriving DecidableEq, Repr

/-- String representation of a status, as stored in the database. -/
def statusStr : Status → String
  | .todo => "Todo"
  | .inProgress => "In Progress"
  | .done => "Done"

/-- Task priority enumeration, stored as the strings High, Medium, Low. -/
inductive Priority where
  | high
  | medium
  | low
deriving DecidableEq, Repr

/-- String representation of a priority, as stored in the database.
The database sort on the priority field compares these strings. -/
def priorityStr : Priority → String
  | .high => "High"
  | .medium => "Medium"
  | .low => "Low"

/-- A Task document, after the canonical (priority-bearing) schema revision
of the Task model. -/
structure Task where
  id : Nat
  task : String
  desc : Option String
  status : Status
  priority : Priority
  creator : Nat
  created_at : Int
  start : Int
  finish : Int
  color : String
  finished_at : Option Int
  subtasks : List Nat
deriving DecidableEq, Repr

/-- Model of `Task.findById id`: first document with the given id. -/
def findById (store : List Task) (id : Nat) : Option Task :=
  store.find? (fun t => t.id == id)

/-- Model of the id-and-creator query: first document matching both the id
and the creator, as used by `findOneAndUpdate` and `findOneAndDelete`. -/
def findOwned (store : List Task) (id uid : Nat) : Option Task :=
  store.find? (fun t => t.id == id && t.creator == uid)

/-- Replace the first document carrying the given id (Mongoose `save` on an
already-persisted document writes back by `_id`). -/
def replaceById : List Task → Nat → Task → List Task
  | [], _, _ => []
  | t :: ts, id, x => if t.id == id then x :: ts else t :: replaceById ts id x

/-- Replace the first document matching id and creator (`findOneAndUpdate`). -/
def replaceOwned : List Task → Nat → Nat → Task → List Task
  | [], _, _, _ => []
  | t :: ts, id, uid, x =>
    if t.id == id && t.creator == uid then x :: ts
    else t :: replaceOwned ts id uid x

/-- Remove the first document matching id and creator (`findOneAndDelete`). -/
def removeOwned : List Task → Nat → Nat → List Task
  | [], _, _ => []
  | t :: ts, id, uid =>
    if t.id == id && t.creator == uid then ts else t :: removeOwned ts id uid

/-- Count of the parent's subtask documents whose status is not Done, as in
the post-save hook: `countDocuments (id in parent.subtasks, status ne Done)`. -/
def countUnfinished (store : List Task) (parent : Task) : Nat :=
  (store.filter (fun s => parent.subtasks.contains s.id && !(s.status == Status.done))).length

/-- Model of `taskSchema.post('save')` from the canonical Task model: when a
task is saved with status Done, find the (first) parent whose subtasks
sequence contains it; if the parent has no unfinished subtask documents, set
the parent's status to Done and save it.  Saving the parent runs the save
middleware again (the pre-save date check, then this hook on the parent),
hence the recursion; `fuel` bounds the recursion depth, which the code does
not bound.  A failing parent save aborts the transaction, leaving the store
unchanged. -/
def postSaveHook : Nat → List Task → Task → List Task
  | 0, store, _ => store
  | fuel + 1, store, t =>
    if t.status == Status.done then
      match store.find? (fun p => p.subtasks.contains t.id) with
      | none => store
      | some parent =>
        if countUnfinished store parent == 0 then
          let parent₂ := { parent with status := Status.done }
          if parent₂.finish < parent₂.start then store
          else postSaveHook fuel (replaceById store parent.id parent₂) parent₂
        else store
    else store

/-- Insert a fresh document, or write back an existing one by its id. -/
def upsert (store : List Task) (t : Task) : List Task :=
  if (findById store t.id).isSome then replaceById store t.id t else store ++ [t]

/-- Model of Mongoose `document.save()` on the Task model: the pre-save
middleware rejects a finish date earlier than the start date; otherwise the
document is persisted and the post-save hook runs. -/
def save (fuel : Nat) (store : List Task) (t : Task) : Except String (List Task) :=
  if t.finish < t.start then .error "Finish date must be later than start date"
  else .ok (postSaveHook fuel (upsert store t) t)

/-- Request body for the task routes; `none` marks an absent field. -/
structure TaskInput where
  task : Option String
  desc : Option String
  start : Option Int
  finish : Option Int
  color : Option String
  status : Option String
  priority : Option String
deriving DecidableEq, Repr

/-- The value produced by a successful Joi validation: required fields are
present, and the color default has been filled in. -/
structure TaskFields where
  task : String
  desc : Option String
  start : Int
  finish : Int
  color : String
  status : Status
  priority : Priority
deriving DecidableEq, Repr

/-- Joi `valid('Todo', 'In Progress', 'Done')`. -/
def parseStatus (s : String) : Option Status :=
  if s == "Todo" then some Status.todo
  else if s == "In Progress" then some Status.inProgress
  else if s == "Done" then some Status.done
  else none

/-- Joi `valid('High', 'Medium', 'Low')`. -/
def parsePriority (s : String) : Option Priority :=
  if s == "High" then some Priority.high
  else if s == "Medium" then some Priority.medium
  else if s == "Low" then some Priority.low
  else none

/-- Model of `validateTask` (the Joi `taskValidationSchema`): task, start,
finish, status and priority are required; finish must be strictly greater
than start; status and priority must belong to their enumerations; color
defaults to black.  The schema chains `.required()` after
`.default('Medium')` on priority, and in Joi the presence check of a
required key runs before any default is applied, so an absent priority is
rejected with a validation error, never defaulted. -/
def validateTask (i : TaskInput) : Except String TaskFields :=
  match i.task with
  | none => .error "task is required"
  | some name =>
    match i.start with
    | none => .error "start is required"
    | some s =>
      match i.finish with
      | none => .error "finish is required"
      | some f =>
        if f ≤ s then .error "finish must be greater than start"
        else
          match i.status with
          | none => .error "status is required"
          | some st =>
            match parseStatus st with
            | none => .error "status must be one of Todo, In Progress, Done"
            | some stv =>
              match i.priority with
              | none => .error "priority is required"
              | some pr =>
                match parsePriority pr with
                | none => .error "priority must be one of High, Medium, Low"
                | some prv =>
                  .ok { task := name
                        desc := i.desc
                        start := s
                        finish := f
                        color := i.color.getD "#000000"
                        status := stv
                        priority := prv }

/-- Build the new Task document from validated fields, as the create routes
do: the creator is the authenticated user, created_at is the current time,
subtasks starts empty. -/
def mkTask (id creator : Nat) (now : Int) (f : TaskFields) : Task :=
  { id := id
    task := f.task
    desc := f.desc
    status := f.status
    priority := f.priority
    creator := creator
    created_at := now
    start := f.start
    finish := f.finish
    color := f.color
    finished_at := none
    subtasks := [] }

/-- HTTP-style outcome of a handler. -/
inductive Outcome (α : Type) where
  | ok (val : α)
  | validationError (msg : String)
  | notFound (msg : String)
  | conflict (msg : String)
  | serverError (msg : String)
deriving DecidableEq, Repr

/-- Model of `POST /dashboard/task`: validate, then save a new task owned by
the authenticated user.  `newId` and `now` stand for the generated object id
and the clock. -/
def createTask (fuel : Nat) (store : List Task) (uid : Nat) (input : TaskInput)
    (newId : Nat) (now : Int) : Outcome Task × List Task :=
  match validateTask input with
  | .error e => (.validationError e, store)
  | .ok v =>
    let t := mkTask newId uid now v
    match save fuel store t with
    | .error e => (.serverError e, store)
    | .ok store₂ => (.ok t, store₂)

/-- Page parameter normalisation of `GET /dashboard/tasks`: absent or NaN or
below one falls back to 1. -/
def normPage : Option Int → Nat
  | none => 1
  | some p => if p < 1 then 1 else p.toNat

/-- Limit parameter normalisation of `GET /dashboard/tasks`: absent or NaN or
below one falls back to 10. -/
def normLimit : Option Int → Nat
  | none => 10
  | some l => if l < 1 then 10 else l.toNat

/-- Sort key of `.sort (priority desc, created_at desc)`: the database
compares the stored priority string lexicographically, then the timestamp. -/
def sortKey (t : Task) : Lex (String × Int) :=
  toLex (priorityStr t.priority, t.created_at)

/-- Descending order on the sort key: `a` precedes `b` when `b`'s key is at
most `a`'s. -/
def taskOrder (a b : Task) : Prop := sortKey b ≤ sortKey a

instance taskOrderDec : DecidableRel taskOrder := fun a b =>
  decidable_of_iff
    ((priorityStr b.priority).toList < (priorityStr a.priority).toList ∨
      ((priorityStr b.priority).toList = (priorityStr a.priority).toList ∧
        b.created_at ≤ a.created_at))
    (by
      rw [taskOrder, sortKey, sortKey, Prod.Lex.le_iff]
      constructor
      · rintro (h | ⟨h, h₂⟩)
        · exact Or.inl (String.lt_iff_toList_lt.mpr h)
        · exact Or.inr ⟨String.toList_inj.mp h, h₂⟩
      · rintro (h | ⟨h, h₂⟩)
        · exact Or.inl (String.lt_iff_toList_lt.mp h)
        · exact Or.inr ⟨congrArg String.toList h, h₂⟩)

instance : IsTotal Task taskOrder :=
  ⟨fun a b => (le_total (sortKey b) (sortKey a)).imp id id⟩

instance : IsTrans Task taskOrder :=
  ⟨fun _ _ _ hab hbc => le_trans hbc hab⟩

/-- The creator-scoped, sorted task sequence that `GET /dashboard/tasks` and
`GET /dashboard/search` page or return. -/
def sortedOwned (store : List Task) (uid : Nat) : List Task :=
  List.insertionSort taskOrder (store.filter (fun t => t.creator == uid))

/-- Response shape of `GET /dashboard/tasks`. -/
structure ListResult where
  tasks : List Task
  total : Nat
  page : Nat
  limit : Nat
  totalPages : Nat
deriving DecidableEq, Repr

/-- Ceiling division on naturals, the model of `Math.ceil (total / limit)`. -/
def ceilDivNat (a b : Nat) : Nat := (a + b - 1) / b

/-- Model of `GET /dashboard/tasks` (canonical revision): creator-scoped
find, priority/created_at descending sort, skip `(page-1)*limit`, take
`limit`, plus the total count and the page count. -/
def listTasks (store : List Task) (uid : Nat) (pageQ limitQ : Option Int) : ListResult :=
  let page := normPage pageQ
  let limit := normLimit limitQ
  let sorted := sortedOwned store uid
  let total := (store.filter (fun t => t.creator == uid)).length
  { tasks := (sorted.drop ((page - 1) * limit)).take limit
    total := total
    page := page
    limit := limit
    totalPages := ceilDivNat total limit }

/-- Model of `POST /dashboard/task/:id/subtask`: validate, resolve the parent
by id alone, save the new subtask owned by the requesting user, then append
its id to the parent's subtasks and save the parent. -/
def createSubtask (fuel : Nat) (store : List Task) (parentId uid : Nat)
    (input : TaskInput) (newId : Nat) (now : Int) : Outcome Task × List Task :=
  match validateTask input with
  | .error e => (.validationError e, store)
  | .ok v =>
    match findById store parentId with
    | none => (.notFound "Parent task not found", store)
    | some parent =>
      let sub := mkTask newId uid now v
      match save fuel store sub with
      | .error e => (.serverError e, store)
      | .ok store₂ =>
        let parent₂ := { parent with subtasks := parent.subtasks ++ [sub.id] }
        match save fuel store₂ parent₂ with
        | .error e => (.serverError e, store₂)
        | .ok store₃ => (.ok sub, store₃)

/-- Model of `GET /dashboard/task/:id/subtasks`: resolve the task by id alone
and populate its subtask references (dangling references are dropped). -/
def getSubtasks (store : List Task) (id : Nat) : Outcome (List Task) :=
  match findById store id with
  | none => .notFound "Task not found"
  | some t => .ok (t.subtasks.filterMap (findById store))

/-- Merge of a validated update body into an existing document, as
`findOneAndUpdate` applies it: every validated field is written (color
carries its Joi default when absent from the body; priority is always
present, since validation rejects bodies lacking it); the optional
description is written only when provided. -/
def mergeFields (old : Task) (v : TaskFields) : Task :=
  { old with
    task := v.task
    desc := (match v.desc with | some d => some d | none => old.desc)
    start := v.start
    finish := v.finish
    color := v.color
    status := v.status
    priority := v.priority }

/-- Model of `PUT /dashboard/task/:id`: validate the body, then
`findOneAndUpdate` on id and creator; no save middleware runs. -/
def updateTask (store : List Task) (id uid : Nat) (input : TaskInput) :
    Outcome Task × List Task :=
  match validateTask input with
  | .error e => (.validationError e, store)
  | .ok v =>
    match findOwned store id uid with
    | none => (.notFound "Task not found or unauthorized", store)
    | some old =>
      let updated := mergeFields old v
      (.ok updated, replaceOwned store id uid updated)

/-- Model of `DELETE /dashboard/task/:id`: `findOneAndDelete` on id and
creator; no save middleware runs and no parent link is touched. -/
def deleteTask (store : List Task) (id uid : Nat) : Outcome Task × List Task :=
  match findOwned store id uid with
  | none => (.notFound "Task not found or unauthorized", store)
  | some t => (.ok t, removeOwned store id uid)

/-- Model of `DELETE /dashboard/task/:parentId/subtask/:subtaskId`: resolve
the parent by id alone; fail if the subtask id is not in its sequence;
otherwise splice the id out, save the parent, and only then look up and
delete the subtask document owned by the requesting user. -/
def deleteSubtask (fuel : Nat) (store : List Task) (parentId subtaskId uid : Nat) :
    Outcome Task × List Task :=
  match findById store parentId with
  | none => (.notFound "Parent task not found", store)
  | some parent =>
    if parent.subtasks.contains subtaskId then
      let parent₂ := { parent with subtasks := parent.subtasks.erase subtaskId }
      match save fuel store parent₂ with
      | .error e => (.serverError e, store)
      | .ok store₂ =>
        match findOwned store₂ subtaskId uid with
        | none => (.notFound "Subtask not found or unauthorized", store₂)
        | some sub => (.ok sub, removeOwned store₂ subtaskId uid)
    else (.notFound "Subtask not found in parent task", store)

/-- Element of a compiled regular-expression pattern: a literal character or
the any-character wildcard. -/
inductive RElem where
  | lit (c : Char)
  | dot
deriving DecidableEq, Repr

/-- Modelled from the spec: the persistence engine's regular-expression
matcher is an external collaborator (the repository only builds the pattern
string); this compiles a pattern restricted to the constructs the handlers
produce — literal characters, backslash escapes, and the dot wildcard. -/
def parseRegex : List Char → List RElem
  | [] => []
  | c :: rest =>
    if c == '\\' then
      match rest with
      | [] => []
      | c₂ :: rest₂ => .lit c₂ :: parseRegex rest₂
    else if c == '.' then .dot :: parseRegex rest
    else .lit c :: parseRegex rest

/-- Modelled from the spec: case-insensitive match of a compiled pattern
against the front of a character sequence (the `i` option of the query). -/
def reMatchAt : List RElem → List Char → Bool
  | [], _ => true
  | _ :: _, [] => false
  | .lit c :: es, x :: xs => (x.toLower == c.toLower) && reMatchAt es xs
  | .dot :: es, _ :: xs => reMatchAt es xs

/-- Modelled from the spec: an unanchored regular-expression query matches a
value when the pattern matches at some position of it. -/
def reSearch (es : List RElem) : List Char → Bool
  | [] => reMatchAt es []
  | x :: xs => reMatchAt es (x :: xs) || reSearch es xs

/-- The special characters escaped by the keyword-sanitising revision of the
search route. -/
def regexSpecials : List Char :=
  ['.', '*', '+', '?', '^', '$', '{', '}', '(', ')', '|', '[', ']', '\\']

/-- Model of the keyword sanitiser of the earlier search revision: prepend a
backslash to every special regular-expression character. -/
def escapeRegex : List Char → List Char
  | [] => []
  | c :: rest =>
    if regexSpecials.contains c then '\\' :: c :: escapeRegex rest
    else c :: escapeRegex rest

/-- Specification-side definition of the intended keyword filter: the lowered
keyword occurs contiguously at the front of the lowered value. -/
def startsWithChars : List Char → List Char → Bool
  | [], _ => true
  | _ :: _, [] => false
  | c :: cs, x :: xs => (c == x) && startsWithChars cs xs

/-- Specification-side definition of the intended keyword filter: the first
sequence occurs contiguously somewhere in the second. -/
def substrAt : List Char → List Char → Bool
  | k, [] => startsWithChars k []
  | k, x :: xs => startsWithChars k (x :: xs) || substrAt k xs

/-- Specification-side definition: case-insensitive literal substring test,
the behaviour the spec prescribes for the keyword filter. -/
def containsLower (k s : String) : Bool :=
  substrAt (k.data.map Char.toLower) (s.data.map Char.toLower)

/-- Query parameters of the search route; `none` marks an absent (or empty,
hence falsy) parameter. -/
structure SearchQuery where
  status : Option String
  priority : Option String
  startDate : Option Int
  endDate : Option Int
  keyword : Option String
deriving DecidableEq, Repr

/-- Filter built by `GET /dashboard/search` in the canonical (priority)
revision: creator scope plus the optional conjuncts; the keyword is passed to
the regular-expression query unescaped. -/
def searchMatch (uid : Nat) (q : SearchQuery) (t : Task) : Bool :=
  t.creator == uid
  && (match q.status with | none => true | some s => statusStr t.status == s)
  && (match q.priority with | none => true | some p => priorityStr t.priority == p)
  && (match q.startDate with | none => true | some d => d ≤ t.start)
  && (match q.endDate with | none => true | some d => t.finish ≤ d)
  && (match q.keyword with
      | none => true
      | some k => reSearch (parseRegex k.data) t.task.data)

/-- Model of `GET /dashboard/search` (canonical revision): filter, then the
same priority/created_at descending sort as the list route. -/
def searchTasks (store : List Task) (uid : Nat) (q : SearchQuery) : List Task :=
  List.insertionSort taskOrder (store.filter (searchMatch uid q))

/-- Filter built by the earlier revision of `GET /dashboard/search`: no
priority parameter, and the keyword is escaped before the
regular-expression query is built. -/
def searchMatchRev1 (uid : Nat) (q : SearchQuery) (t : Task) : Bool :=
  t.creator == uid
  && (match q.status with | none => true | some s => statusStr t.status == s)
  && (match q.startDate with | none => true | some d => d ≤ t.start)
  && (match q.endDate with | none => true | some d => t.finish ≤ d)
  && (match q.keyword with
      | none => true
      | some k => reSearch (parseRegex (escapeRegex k.data)) t.task.data)

/-- Model of the earlier revision of `GET /dashboard/search`: plain filter,
no sort. -/
def searchTasksRev1 (store : List Task) (uid : Nat) (q : SearchQuery) : List Task :=
  store.filter (searchMatchRev1 uid q)

/-- A User document. -/
structure User where
  id : Nat
  username : String
  email : String
  password : String
  created_at : Int
deriving DecidableEq, Repr

/-- Modelled from the spec: the bcrypt one-way hash (the bcrypt library is an
external collaborator).  The stored value embeds a format tag, the cost
factor and the (here transparent) payload; the spec only requires that the
stored value never equals the plaintext and that comparing the original
plaintext against it succeeds. -/
def bcryptHash (cost : Nat) (p : String) : String :=
  "$2b$" ++ toString cost ++ "$" ++ p

/-- Modelled from the spec: `bcrypt.compare` of a plaintext against a stored
hash produced with the given cost factor. -/
def bcryptCompare (cost : Nat) (p stored : String) : Bool :=
  stored == bcryptHash cost p

/-- Model of `POST /auth/signup` together with the password-hashing pre-save
middleware of the User model: reject an existing username or email as a
conflict, otherwise persist the user with the password replaced by its hash. -/
def signup (users : List User) (cost : Nat) (username email password : String)
    (newId : Nat) (now : Int) : Outcome User × List User :=
  match users.find? (fun u => u.username == username || u.email == email) with
  | some _ => (.conflict "Username or email already exists", users)
  | none =>
    let u : User :=
      { id := newId
        username := username
        email := email
        password := bcryptHash cost password
        created_at := now }
    (.ok u, users ++ [u])

/-- Outcome of `POST /auth/signin`. -/
inductive SigninResult where
  | missingFields
  | invalidCredentials
  | okToken (id : Nat) (username : String)
deriving DecidableEq, Repr

/-- Model of `POST /auth/signin`: both fields required (an absent field is
the empty string), lookup by email, bcrypt comparison, token issuance on
success (the token's claims are the user id and username). -/
def signin (users : List User) (cost : Nat) (email password : String) : SigninResult :=
  if email == "" || password == "" then .missingFields
  else
    match users.find? (fun u => u.email == email) with
    | none => .invalidCredentials
    | some u =>
      if bcryptCompare cost password u.password then .okToken u.id u.username
      else .invalidCredentials

/-! Concrete documents and request bodies used as test vectors below. -/

/-- A well-formed request body for the task routes. -/
def demoInput : TaskInput :=
  { task := some "T1", desc := none, start := some 0, finish := some 5,
    color := none, status := some "Todo", priority := some "Medium" }

/-- The fields `demoInput` validates to. -/
def demoFields : TaskFields :=
  { task := "T1", desc := none, start := 0, finish := 5, color := "#000000",
    status := Status.todo, priority := Priority.medium }

/-- A template task owned by user 1. -/
def demoBase : Task :=
  { id := 1, task := "P", desc := none, status := Status.todo,
    priority := Priority.medium, creator := 1, created_at := 0, start := 0,
    finish := 5, color := "#000000", finished_at := none, subtasks := [] }

/-- A task owned by user 2, targeted as a parent by user 1's requests. -/
def demoParentOther : Task := { demoBase with creator := 2 }

/-- A parent owned by user 1 whose subtasks sequence holds the dangling id 5. -/
def demoParentDangling : Task := { demoBase with subtasks := [5] }

/-- A parent with two subtask references. -/
def demoParent23 : Task := { demoBase with subtasks := [2, 3] }

/-- Subtask 2 of `demoParent23`, already Done. -/
def demoSub2 : Task := { demoBase with id := 2, status := Status.done }

/-- Subtask 3 of `demoParent23`, already Done. -/
def demoSub3 : Task := { demoBase with id := 3, status := Status.done }

/-- Subtask 3 of `demoParent23`, still Todo. -/
def demoSub3Todo : Task := { demoBase with id := 3 }

/-- The subtask document with id 5 referenced by `demoParentDangling`. -/
def demoSub5 : Task := { demoBase with id := 5 }

/-- A High-priority task created later than `demoMed`. -/
def demoHigh : Task := { demoBase with id := 1, priority := Priority.high, created_at := 100 }

/-- A Medium-priority task created earlier than `demoHigh`. -/
def demoMed : Task := { demoBase with id := 2, priority := Priority.medium, created_at := 50 }

/-- A task whose name is the literal string abc. -/
def demoAbc : Task := { demoBase with id := 3, task := "abc" }

/-- A search query whose keyword holds a regular-expression metacharacter. -/
def demoDotQuery : SearchQuery :=
  { status := none, priority := none, startDate := none, endDate := none,
    keyword := some "a.c" }

/-- The partial update body the repository's own test sends to the update
route: only a status field. -/
def onlyStatusInput : TaskInput :=
  { task := none, desc := none, start := none, finish := none, color := none,
    status := some "In Progress", priority := none }

/-! Auxiliary lemmas about the store operations. -/

theorem findById_prop {store : List Task} {id : Nat} {t : Task}
    (h : findById store id = some t) : t.id = id ∧ t ∈ store := by
  refine ⟨?_, List.mem_of_find?_eq_some h⟩
  have := List.find?_some h
  simpa using this

theorem findOwned_prop {store : List Task} {id uid : Nat} {t : Task}
    (h : findOwned store id uid = some t) :
    t.id = id ∧ t.creator = uid ∧ t ∈ store := by
  have hp := List.find?_some h
  simp only [Bool.and_eq_true, beq_iff_eq] at hp
  exact ⟨hp.1, hp.2, List.mem_of_find?_eq_some h⟩

theorem mem_replaceOwned_of_ne {store : List Task} {id uid : Nat} {x s : Task}
    (hs : s ∈ store) (hne : ¬(s.id = id ∧ s.creator = uid)) :
    s ∈ replaceOwned store id uid x := by
  induction store with
  | nil => cases hs
  | cons h ts ih =>
    rcases List.mem_cons.mp hs with rfl | hmem
    · have : (s.id == id && s.creator == uid) = false := by
        by_cases h1 : s.id = id
        · by_cases h2 : s.creator = uid
          · exact absurd ⟨h1, h2⟩ hne
          · simp [h1, h2]
        · simp [h1]
      simp [replaceOwned, this]
    · by_cases hb : (h.id == id && h.creator == uid) = true
      · simp [replaceOwned, hb, List.mem_cons, hmem]
      · simp only [replaceOwned, Bool.not_eq_true] at hb ⊢
        rw [hb]
        exact List.mem_cons_of_mem _ (ih hmem)

theorem mem_removeOwned_of_ne {store : List Task} {id uid : Nat} {s : Task}
    (hs : s ∈ store) (hne : ¬(s.id = id ∧ s.creator = uid)) :
    s ∈ removeOwned store id uid := by
  induction store with
  | nil => cases hs
  | cons h ts ih =>
    rcases List.mem_cons.mp hs with rfl | hmem
    · have : (s.id == id && s.creator == uid) = false := by
        by_cases h1 : s.id = id
        · by_cases h2 : s.creator = uid
          · exact absurd ⟨h1, h2⟩ hne
          · simp [h1, h2]
        · simp [h1]
      simp [removeOwned, this]
    · by_cases hb : (h.id == id && h.creator == uid) = true
      · simp [removeOwned, hb, hmem]
      · simp only [removeOwned, Bool.not_eq_true] at hb ⊢
        rw [hb]
        exact List.mem_cons_of_mem _ (ih hmem)

/-- Write-back of a Done status, the only mutation the post-save hook makes. -/
def doneUpd (t : Task) : Task := { t with status := Status.done }

/-- Per-document relation between a store and the result of the post-save
hook: each document is untouched or has had its status set to Done. -/
def HookRel (a b : Task) : Prop := b = a ∨ b = doneUpd a

theorem hookRel_refl (a : Task) : HookRel a a := Or.inl rfl

theorem hookRel_id {a b : Task} (h : HookRel a b) : b.id = a.id := by
  rcases h with rfl | rfl <;> rfl

theorem hookRel_creator {a b : Task} (h : HookRel a b) : b.creator = a.creator := by
  rcases h with rfl | rfl <;> rfl

theorem hookRel_subtasks {a b : Task} (h : HookRel a b) : b.subtasks = a.subtasks := by
  rcases h with rfl | rfl <;> rfl

theorem hookRel_done {a b : Task} (h : HookRel a b) (hd : a.status = Status.done) :
    b.status = Status.done := by
  rcases h with rfl | rfl
  · exact hd
  · rfl

theorem hookRel_trans {a b c : Task} (h₁ : HookRel a b) (h₂ : HookRel b c) : HookRel a c := by
  rcases h₁ with rfl | rfl
  · exact h₂
  · rcases h₂ with rfl | rfl
    · exact Or.inr rfl
    · exact Or.inr rfl

theorem forall₂_hookRel_refl (l : List Task) : List.Forall₂ HookRel l l :=
  List.forall₂_same.mpr fun a _ => hookRel_refl a

theorem forall₂_hookRel_trans :
    ∀ {l₁ l₂ l₃ : List Task}, List.Forall₂ HookRel l₁ l₂ → List.Forall₂ HookRel l₂ l₃ →
      List.Forall₂ HookRel l₁ l₃ := by
  intro l₁ l₂ l₃ h₁ h₂
  induction h₁ generalizing l₃ with
  | nil => cases h₂; exact List.Forall₂.nil
  | cons hab htail ih =>
    cases h₂ with
    | cons hbc htail₂ => exact List.Forall₂.cons (hookRel_trans hab hbc) (ih htail₂)

theorem map_id_of_forall₂ {l₁ l₂ : List Task} (h : List.Forall₂ HookRel l₁ l₂) :
    l₂.map Task.id = l₁.map Task.id := by
  induction h with
  | nil => rfl
  | cons hab _ ih => simp [hookRel_id hab, ih]

theorem mem_right_of_forall₂ {l₁ l₂ : List Task} (h : List.Forall₂ HookRel l₁ l₂)
    {b : Task} (hb : b ∈ l₂) : ∃ a ∈ l₁, HookRel a b := by
  induction h with
  | nil => cases hb
  | cons hab _ ih =>
    rcases List.mem_cons.mp hb with rfl | hmem
    · exact ⟨_, List.mem_cons_self _ _, hab⟩
    · obtain ⟨a, ha, har⟩ := ih hmem
      exact ⟨a, List.mem_cons_of_mem _ ha, har⟩

theorem findById_of_forall₂ {l₁ l₂ : List Task} (h : List.Forall₂ HookRel l₁ l₂)
    (hnd : (l₁.map Task.id).Nodup) {a : Task} (ha : a ∈ l₁) :
    ∃ b, findById l₂ a.id = some b ∧ HookRel a b := by
  induction h with
  | nil => cases ha
  | cons hab htail ih =>
    rename_i a₀ b₀ l₁' l₂'
    rcases List.mem_cons.mp ha with rfl | hmem
    · refine ⟨b₀, ?_, hab⟩
      have : (b₀.id == a.id) = true := by simp [hookRel_id hab]
      simp [findById, List.find?, this]
    · have hane : a.id ≠ a₀.id := by
        intro heq
        have : a₀.id ∈ l₁'.map Task.id := heq ▸ List.mem_map_of_mem Task.id hmem
        exact (List.nodup_cons.mp hnd).1 this
      have hb : (b₀.id == a.id) = false := by
        simp [hookRel_id hab, Ne.symm hane]
      obtain ⟨b, hfind, hrel⟩ := ih (List.nodup_cons.mp hnd).2 hmem
      exact ⟨b, by simpa [findById, List.find?, hb] using hfind, hrel⟩

theorem replaceById_forall₂ {store : List Task} {q : Task}
    (hnd : (store.map Task.id).Nodup) (hq : q ∈ store) :
    List.Forall₂ HookRel store (replaceById store q.id (doneUpd q)) := by
  induction store with
  | nil => cases hq
  | cons h ts ih =>
    rcases List.mem_cons.mp hq with rfl | hmem
    · simp only [replaceById, beq_self_eq_true, if_true]
      exact List.Forall₂.cons (Or.inr rfl) (forall₂_hookRel_refl ts)
    · have hne : h.id ≠ q.id := by
        intro heq
        have : h.id ∈ ts.map Task.id := heq ▸ List.mem_map_of_mem Task.id hmem
        exact (List.nodup_cons.mp hnd).1 this
      have hb : (h.id == q.id) = false := by simp [hne]
      simp only [replaceById, hb, if_false, Bool.false_eq_true]
      exact List.Forall₂.cons (hookRel_refl h) (ih (List.nodup_cons.mp hnd).2 hmem)

/-- The post-save hook only ever writes Done statuses: every document of the
resulting store is the corresponding original document, possibly with its
status replaced by Done. -/
theorem hook_forall₂ :
    ∀ (fuel : Nat) (store : List Task) (t : Task), (store.map Task.id).Nodup →
      List.Forall₂ HookRel store (postSaveHook fuel store t) := by
  intro fuel
  induction fuel with
  | zero => intro store t _; exact forall₂_hookRel_refl store
  | succ n ih =>
    intro store t hnd
    rw [postSaveHook]
    by_cases hs : (t.status == Status.done) = true
    · rw [if_pos hs]
      cases hfind : store.find? (fun p => p.subtasks.contains t.id) with
      | none => exact forall₂_hookRel_refl store
      | some parent =>
        dsimp only
        by_cases hc : (countUnfinished store parent == 0) = true
        · rw [if_pos hc]
          by_cases hd : ({ parent with status := Status.done } : Task).finish <
              ({ parent with status := Status.done } : Task).start
          · simp only [hd, if_true]
            exact forall₂_hookRel_refl store
          · simp only [hd, if_false]
            have hmem := List.mem_of_find?_eq_some hfind
            have h₁ := replaceById_forall₂ hnd hmem
            have hnd₂ : ((replaceById store parent.id (doneUpd parent)).map Task.id).Nodup := by
              rw [map_id_of_forall₂ h₁]; exact hnd
            have h₂ := ih (replaceById store parent.id (doneUpd parent))
              (doneUpd parent) hnd₂
            exact forall₂_hookRel_trans h₁ h₂
        · rw [if_neg (by simpa using hc)]
          exact forall₂_hookRel_refl store
    · rw [if_neg (by simpa using hs)]
      exact forall₂_hookRel_refl store

theorem findById_replaceById_self {store : List Task} {q x : Task}
    (hq : q ∈ store) (hx : x.id = q.id) :
    findById (replaceById store q.id x) q.id = some x := by
  induction store with
  | nil => cases hq
  | cons h ts ih =>
    by_cases hb : (h.id == q.id) = true
    · simp [replaceById, hb, findById, List.find?, hx]
    · have hne : q ≠ h := by
        intro heq; exact hb (by simp [heq])
      have hmem : q ∈ ts := (List.mem_cons.mp hq).resolve_left hne
      simp only [replaceById, hb, Bool.false_eq_true, if_false]
      simpa [findById, List.find?, hb] using ih hmem

theorem countUnfinished_eq_zero_iff (store : List Task) (parent : Task) :
    countUnfinished store parent = 0 ↔
      ∀ s ∈ store, s.id ∈ parent.subtasks → s.status = Status.done := by
  unfold countUnfinished
  rw [List.length_eq_zero, List.filter_eq_nil_iff]
  constructor
  · intro h s hs hmem
    by_contra hne
    apply h s hs
    rw [Bool.and_eq_true]
    refine ⟨by simpa using hmem, ?_⟩
    rw [Bool.not_eq_true']
    exact beq_eq_false_iff_ne.mpr hne
  · intro h s hs hpred
    rw [Bool.and_eq_true] at hpred
    obtain ⟨hA, hB⟩ := hpred
    rw [Bool.not_eq_true'] at hB
    have hmem : s.id ∈ parent.subtasks := by simpa using hA
    rw [h s hs hmem] at hB
    simp at hB

theorem ceilDivNat_zero {L : Nat} (hL : 0 < L) : ceilDivNat 0 L = 0 := by
  unfold ceilDivNat
  exact Nat.div_eq_of_lt (by omega)

theorem ceilDivNat_succ {m L : Nat} (hL : 0 < L) (hm : 0 < m) :
    ceilDivNat m L = ceilDivNat (m - L) L + 1 := by
  unfold ceilDivNat
  have h1 : m + L - 1 = (m - 1) + L := by omega
  rw [h1, Nat.add_div_right _ hL]
  by_cases hml : L ≤ m
  · have h2 : m - L + L - 1 = m - 1 := by omega
    rw [h2]
  · have h2 : m - L = 0 := by omega
    have h3 : (0 + L - 1) / L = 0 := Nat.div_eq_of_lt (by omega)
    have h4 : (m - 1) / L = 0 := Nat.div_eq_of_lt (by omega)
    rw [h2, h3, h4]

theorem ceilDivNat_bounds {a L : Nat} (hL : 0 < L) :
    a ≤ ceilDivNat a L * L ∧ ceilDivNat a L * L < a + L := by
  unfold ceilDivNat
  have h1 : L * ((a + L - 1) / L) + (a + L - 1) % L = a + L - 1 :=
    Nat.div_add_mod (a + L - 1) L
  have h2 : (a + L - 1) % L < L := Nat.mod_lt _ hL
  rw [Nat.mul_comm ((a + L - 1) / L) L]
  generalize L * ((a + L - 1) / L) = M at h1 ⊢
  omega

theorem pagesJoin {α : Type} :
    ∀ (n : Nat) (l : List α), l.length ≤ n → ∀ {L : Nat}, 0 < L →
      ((List.range (ceilDivNat l.length L)).map
        (fun p => ((l.drop (p * L)).take L))).flatten = l := by
  intro n
  induction n with
  | zero =>
    intro l hl L hL
    have : l = [] := List.eq_nil_of_length_eq_zero (Nat.le_zero.mp hl)
    subst this
    simp [ceilDivNat_zero hL]
  | succ n ih =>
    intro l hl L hL
    cases l with
    | nil => simp [ceilDivNat_zero hL]
    | cons a as =>
      have hm : 0 < (a :: as).length := by simp
      rw [ceilDivNat_succ hL hm, List.range_succ_eq_map, List.map_cons,
        List.flatten_cons, List.map_map]
      simp only [Nat.zero_mul, List.drop_zero]
      have hcomp :
          ((List.range (ceilDivNat ((a :: as).length - L) L)).map
            ((fun p => (((a :: as).drop (p * L)).take L)) ∘ Nat.succ)) =
          ((List.range (ceilDivNat ((a :: as).drop L).length L)).map
            (fun p => ((((a :: as).drop L).drop (p * L)).take L))) := by
        rw [List.length_drop]
        refine List.map_congr_left ?_
        intro p _
        simp only [Function.comp_apply]
        rw [List.drop_drop]
        congr 2
        rw [Nat.add_comm]
        exact Nat.succ_mul p L
      rw [hcomp]
      have hlen : ((a :: as).drop L).length ≤ n := by
        rw [List.length_drop]
        have := hl
        simp only [List.length_cons] at this ⊢
        omega
      rw [ih ((a :: as).drop L) hlen hL, List.take_append_drop]

theorem parseRegex_cons_other {c : Char} {rest : List Char}
    (h1 : (c == '\\') = false) (h2 : (c == '.') = false) :
    parseRegex (c :: rest) = .lit c :: parseRegex rest := by
  rw [parseRegex.eq_def]
  simp [h1, h2]

theorem parseRegex_escape (l : List Char) :
    parseRegex (escapeRegex l) = l.map RElem.lit := by
  induction l with
  | nil => rfl
  | cons c rest ih =>
    by_cases hc : regexSpecials.contains c = true
    · rw [escapeRegex, if_pos hc]
      rw [parseRegex.eq_def]
      simp [ih]
    · rw [escapeRegex, if_neg (by simpa using hc)]
      have hcm : c ∉ regexSpecials := by
        intro hm
        exact hc (by simpa using hm)
      have h1 : (c == '\\') = false := by
        rw [beq_eq_false_iff_ne]
        intro heq
        exact hcm (by rw [heq]; simp [regexSpecials])
      have h2 : (c == '.') = false := by
        rw [beq_eq_false_iff_ne]
        intro heq
        exact hcm (by rw [heq]; simp [regexSpecials])
      rw [parseRegex_cons_other h1 h2, ih, List.map_cons]

theorem reMatchAt_lits :
    ∀ (k s : List Char),
      reMatchAt (k.map RElem.lit) s =
        startsWithChars (k.map Char.toLower) (s.map Char.toLower) := by
  intro k
  induction k with
  | nil => intro s; rfl
  | cons c cs ih =>
    intro s
    cases s with
    | nil => rfl
    | cons x xs =>
      rw [List.map_cons, List.map_cons, List.map_cons]
      show ((x.toLower == c.toLower) && reMatchAt (cs.map RElem.lit) xs) = _
      rw [startsWithChars, ih xs]
      have hcomm : (x.toLower == c.toLower) = (c.toLower == x.toLower) := by
        by_cases h : x.toLower = c.toLower
        · simp [h]
        · simp [h, Ne.symm h]
      rw [hcomm]

theorem reSearch_lits :
    ∀ (s k : List Char),
      reSearch (k.map RElem.lit) s =
        substrAt (k.map Char.toLower) (s.map Char.toLower) := by
  intro s
  induction s with
  | nil => intro k; exact reMatchAt_lits k []
  | cons x xs ih =>
    intro k
    simp only [List.map_cons, reSearch, substrAt, reMatchAt_lits k (x :: xs), ih k,
      List.map_cons]

theorem find?_append_none {α : Type} {p : α → Bool} {l₁ l₂ : List α}
    (h : l₁.find? p = none) : (l₁ ++ l₂).find? p = l₂.find? p := by
  rw [List.find?_append, h, Option.none_or]

/-! Claim theorems. -/

/-- C5: the claim says `update(id, ownerId, fields)` succeeds for every subset
of task fields — for example only status — merging just the provided fields.
The code contradicts this (and the repository's own dashboard test, which
sends exactly this body and expects success): the update route validates the
body with the full task schema, which requires the task, start, finish and
status fields, so a body holding only a status is rejected with a validation
error and no document is written. -/
theorem C5_partial_update_rejected (store : List Task) (id uid : Nat) :
    updateTask store id uid onlyStatusInput =
      (Outcome.validationError "task is required", store) := rfl

/-- C6: any task-creation input whose finish timestamp precedes its start
timestamp is rejected by the Joi validation with a validation error, and the
task store is left unchanged. -/
theorem C6_create_finish_before_start (fuel : Nat) (store : List Task)
    (uid newId : Nat) (now : Int) (input : TaskInput) (s f : Int)
    (hs : input.start = some s) (hf : input.finish = some f) (hlt : f < s) :
    (∃ m, (createTask fuel store uid input newId now).1 = Outcome.validationError m) ∧
      (createTask fuel store uid input newId now).2 = store := by
  have hval : ∃ m, validateTask input = .error m := by
    cases ht : input.task with
    | none => exact ⟨"task is required", by simp [validateTask, ht]⟩
    | some name =>
      refine ⟨"finish must be greater than start", ?_⟩
      simp [validateTask, ht, hs, hf, le_of_lt hlt]
  obtain ⟨m, hm⟩ := hval
  unfold createTask
  rw [hm]
  exact ⟨⟨m, rfl⟩, rfl⟩

/-- C6 witness: a concrete creation request with finish 0 and start 5 is
rejected and the empty store is unchanged. -/
theorem C6_witness :
    (∃ m, (createTask 1 [] 1 { demoInput with start := some 5, finish := some 0 } 7 0).1 =
        Outcome.validationError m) ∧
      (createTask 1 [] 1 { demoInput with start := some 5, finish := some 0 } 7 0).2 = [] :=
  C6_create_finish_before_start 1 [] 1 7 0 _ 5 0 rfl rfl (by decide)

/-- C9 counterexample: the canonical (priority-bearing) search revision passes
the keyword to the regular-expression query unescaped, so the keyword a.c
matches the task named abc even though abc does not literally contain a.c;
the earlier escaping revision correctly returns nothing. -/
theorem C9_counterexample :
    searchTasks [demoAbc] 1 demoDotQuery = [demoAbc] ∧
      searchTasksRev1 [demoAbc] 1 demoDotQuery = [] ∧
      containsLower "a.c" "abc" = false ∧ demoAbc.task = "abc" := by decide

/-- C9 amended: in the earlier (escaping) revision of the search route the
claim holds: the keyword filter is exactly a case-insensitive literal
substring match, because every special regular-expression character of the
keyword is escaped before the pattern is built.  The canonical
priority-bearing revision passes the keyword unescaped (see the
counterexample). -/
theorem C9_escaped_keyword_literal (store : List Task) (uid : Nat) (k : String) :
    searchTasksRev1 store uid
        { status := none, priority := none, startDate := none, endDate := none,
          keyword := some k } =
      store.filter (fun t => t.creator == uid && containsLower k t.task) := by
  unfold searchTasksRev1
  refine List.filter_congr ?_
  intro t _
  unfold searchMatchRev1 containsLower
  simp only [Bool.and_true]
  rw [parseRegex_escape, reSearch_lits]

/-- C8 counterexample: the list route sorts on the stored priority string, so
a Medium-priority task is returned before a High-priority one (Medium is
lexicographically the largest of the three strings), refuting the claimed
High before Medium before Low order. -/
theorem C8_counterexample :
    (listTasks [demoHigh, demoMed] 1 none none).tasks = [demoMed, demoHigh] ∧
      demoMed.priority = Priority.medium ∧ demoHigh.priority = Priority.high ∧
      demoMed.created_at < demoHigh.created_at := by decide

/-- C8 amended: the sequences returned by the list and search routes are
sorted by `taskOrder`, which is descending lexicographic order of the stored
priority string and then descending created_at — and on the priority strings
that order puts Medium first, then Low, then High (High is the
lexicographically least string), not High then Medium then Low. -/
theorem C8_sort_order :
    (∀ (store : List Task) (uid : Nat), List.Sorted taskOrder (sortedOwned store uid)) ∧
    (∀ (store : List Task) (uid : Nat) (q : SearchQuery),
        List.Sorted taskOrder (searchTasks store uid q)) ∧
    (∀ a b : Task, taskOrder a b ↔
        ((priorityStr b.priority).toList < (priorityStr a.priority).toList ∨
          ((priorityStr b.priority).toList = (priorityStr a.priority).toList ∧
            b.created_at ≤ a.created_at))) ∧
    ((priorityStr Priority.low).toList < (priorityStr Priority.medium).toList ∧
      (priorityStr Priority.high).toList < (priorityStr Priority.low).toList) := by
  refine ⟨?_, ?_, ?_, by decide⟩
  · intro store uid
    exact List.sorted_insertionSort taskOrder _
  · intro store uid q
    exact List.sorted_insertionSort taskOrder _
  · intro a b
    rw [taskOrder, sortKey, sortKey, Prod.Lex.le_iff]
    constructor
    · rintro (h | ⟨h, h₂⟩)
      · exact Or.inl (String.lt_iff_toList_lt.mp h)
      · exact Or.inr ⟨congrArg String.toList h, h₂⟩
    · rintro (h | ⟨h, h₂⟩)
      · exact Or.inl (String.lt_iff_toList_lt.mpr h)
      · exact Or.inr ⟨String.toList_inj.mp h, h₂⟩

/-- C8 amended witness: the two-task store is sorted by `taskOrder`. -/
theorem C8_witness : List.Sorted taskOrder (sortedOwned [demoHigh, demoMed] 1) :=
  C8_sort_order.1 [demoHigh, demoMed] 1

/-- C9 amended witness: the escaping revision on a concrete store filters by
literal containment. -/
theorem C9_witness :
    searchTasksRev1 [demoAbc] 1
        { status := none, priority := none, startDate := none, endDate := none,
          keyword := some "abc" } =
      [demoAbc].filter (fun t => t.creator == 1 && containsLower "abc" t.task) :=
  C9_escaped_keyword_literal [demoAbc] 1 "abc"

/-- C2: a signup with fresh username and email persists a user whose stored
password is the bcrypt hash, never the plaintext, and a subsequent signin
with the original plaintext authenticates as that user. -/
theorem C2_signup_hash_roundtrip (users : List User) (cost newId : Nat) (now : Int)
    (username email password : String)
    (hfresh : ∀ u ∈ users, u.username ≠ username ∧ u.email ≠ email)
    (hem : email ≠ "") (hpw : password ≠ "") :
    ∃ u : User,
      signup users cost username email password newId now = (Outcome.ok u, users ++ [u]) ∧
      u.password ≠ password ∧
      bcryptCompare cost password u.password = true ∧
      signin (users ++ [u]) cost email password = SigninResult.okToken newId username := by
  have hfind : users.find? (fun u => u.username == username || u.email == email) = none := by
    rw [List.find?_eq_none]
    intro u hu
    obtain ⟨h1, h2⟩ := hfresh u hu
    simp [h1, h2]
  refine ⟨{ id := newId, username := username, email := email,
            password := bcryptHash cost password, created_at := now }, ?_, ?_, ?_, ?_⟩
  · unfold signup
    rw [hfind]
  · intro heq
    have hlen : (bcryptHash cost password).length = password.length :=
      congrArg String.length heq
    rw [bcryptHash, String.length_append, String.length_append,
      String.length_append] at hlen
    have h4 : ("$2b$" : String).length = 4 := rfl
    have h1 : ("$" : String).length = 1 := rfl
    omega
  · simp [bcryptCompare]
  · unfold signin
    rw [if_neg (by simp [hem, hpw])]
    have husers : users.find? (fun u => u.email == email) = none := by
      rw [List.find?_eq_none]
      intro u hu
      simp [(hfresh u hu).2]
    rw [find?_append_none husers]
    simp [List.find?, bcryptCompare]

/-- C2 witness: a concrete signup followed by a signin with the same
plaintext. -/
theorem C2_witness :
    ∃ u : User,
      signup [] 10 "alice" "a@x.com" "Secret1" 1 0 = (Outcome.ok u, [] ++ [u]) ∧
      u.password ≠ "Secret1" ∧
      bcryptCompare 10 "Secret1" u.password = true ∧
      signin ([] ++ [u]) 10 "a@x.com" "Secret1" = SigninResult.okToken 1 "alice" :=
  C2_signup_hash_roundtrip [] 10 1 0 "alice" "a@x.com" "Secret1"
    (by simp) (by decide) (by decide)

/-- C1 counterexample: user 1 creates a subtask under a parent task owned by
user 2; the handler resolves the parent by id alone, succeeds, and persists
user 2's parent document with the new subtask link appended — a task-handler
operation modifying a task whose creator is a different user. -/
theorem C1_counterexample :
    (createSubtask 3 [demoParentOther] 1 1 demoInput 5 0).1 =
        Outcome.ok (mkTask 5 1 0 demoFields) ∧
      (createSubtask 3 [demoParentOther] 1 1 demoInput 5 0).2 =
        [{ demoParentOther with subtasks := [5] }, mkTask 5 1 0 demoFields] ∧
      demoParentOther.creator = 2 := by decide

/-- C1 amended: the plain update and delete routes, the list route, the
search route, and the subtask-document deletion inside the subtask-deletion
route only ever return or touch tasks whose creator is the authenticated
user; but the three subtask routes resolve the parent task by id alone, with
no ownership check, and can read and mutate a parent owned by a different
user (see the counterexample). -/
theorem C1_owner_scoping (fuel : Nat) (store : List Task) (id pid sid uid : Nat)
    (input : TaskInput) (pageQ limitQ : Option Int) (q : SearchQuery) (t : Task) :
    ((updateTask store id uid input).1 = Outcome.ok t → t.creator = uid) ∧
    ((deleteTask store id uid).1 = Outcome.ok t → t.creator = uid) ∧
    ((deleteSubtask fuel store pid sid uid).1 = Outcome.ok t → t.creator = uid) ∧
    (∀ s ∈ (listTasks store uid pageQ limitQ).tasks, s.creator = uid) ∧
    (∀ s ∈ searchTasks store uid q, s.creator = uid) := by
  refine ⟨?_, ?_, ?_, ?_, ?_⟩
  · intro h
    unfold updateTask at h
    cases hv : validateTask input with
    | error e => rw [hv] at h; simp at h
    | ok v =>
      rw [hv] at h
      cases hf : findOwned store id uid with
      | none => rw [hf] at h; simp at h
      | some old =>
        rw [hf] at h
        simp only [Outcome.ok.injEq] at h
        rw [← h]
        exact (findOwned_prop hf).2.1
  · intro h
    unfold deleteTask at h
    cases hf : findOwned store id uid with
    | none => rw [hf] at h; simp at h
    | some old =>
      rw [hf] at h
      simp only [Outcome.ok.injEq] at h
      rw [← h]
      exact (findOwned_prop hf).2.1
  · intro h
    unfold deleteSubtask at h
    cases hfp : findById store pid with
    | none => rw [hfp] at h; simp at h
    | some parent =>
      rw [hfp] at h
      dsimp only at h
      by_cases hc : parent.subtasks.contains sid = true
      · rw [if_pos hc] at h
        cases hsv : save fuel store { parent with subtasks := parent.subtasks.erase sid } with
        | error e => rw [hsv] at h; simp at h
        | ok store₂ =>
          rw [hsv] at h
          dsimp only at h
          cases hfo : findOwned store₂ sid uid with
          | none => rw [hfo] at h; simp at h
          | some sub =>
            rw [hfo] at h
            simp only [Outcome.ok.injEq] at h
            rw [← h]
            exact (findOwned_prop hfo).2.1
      · rw [if_neg hc] at h
        simp at h
  · intro s hs
    unfold listTasks at hs
    dsimp only at hs
    have hmem : s ∈ sortedOwned store uid :=
      List.mem_of_mem_drop (List.mem_of_mem_take hs)
    have hfil : s ∈ store.filter (fun t => t.creator == uid) :=
      (List.perm_insertionSort taskOrder _).mem_iff.mp hmem
    have := (List.mem_filter.mp hfil).2
    simpa using this
  · intro s hs
    unfold searchTasks at hs
    have hfil : s ∈ store.filter (searchMatch uid q) :=
      (List.perm_insertionSort taskOrder _).mem_iff.mp hs
    have hm := (List.mem_filter.mp hfil).2
    unfold searchMatch at hm
    simp only [Bool.and_eq_true] at hm
    have := hm.1.1.1.1.1
    simpa using this

/-- C1 amended witness: concrete owner-scoped successes of the update, delete
and subtask-deletion routes. -/
theorem C1_witness :
    (mergeFields demoBase demoFields).creator = 1 ∧ demoBase.creator = 1 ∧
      demoSub2.creator = 1 :=
  ⟨(C1_owner_scoping 2 [demoBase] 1 1 2 1 demoInput none none demoDotQuery
      (mergeFields demoBase demoFields)).1 (by decide),
   (C1_owner_scoping 2 [demoBase] 1 1 2 1 demoInput none none demoDotQuery
      demoBase).2.1 (by decide),
   (C1_owner_scoping 2 [demoParent23, demoSub2] 1 1 2 1 demoInput none none
      demoDotQuery demoSub2).2.2.1 (by decide)⟩

theorem mem_replaceById {store : List Task} {id : Nat} {x b : Task}
    (hb : b ∈ replaceById store id x) : b ∈ store ∨ b = x := by
  induction store with
  | nil => cases hb
  | cons h ts ih =>
    by_cases hc : (h.id == id) = true
    · rw [replaceById, if_pos hc] at hb
      rcases List.mem_cons.mp hb with rfl | hmem
      · exact Or.inr rfl
      · exact Or.inl (List.mem_cons_of_mem _ hmem)
    · rw [replaceById, if_neg hc] at hb
      rcases List.mem_cons.mp hb with rfl | hmem
      · exact Or.inl (List.mem_cons_self _ _)
      · rcases ih hmem with hm | rfl
        · exact Or.inl (List.mem_cons_of_mem _ hm)
        · exact Or.inr rfl

theorem map_id_replaceById {store : List Task} {id : Nat} {x : Task}
    (hx : x.id = id) : (replaceById store id x).map Task.id = store.map Task.id := by
  induction store with
  | nil => rfl
  | cons h ts ih =>
    by_cases hc : (h.id == id) = true
    · rw [replaceById, if_pos hc]
      simp only [List.map_cons]
      rw [hx, (beq_iff_eq.mp hc)]
    · rw [replaceById, if_neg hc]
      simp only [List.map_cons, ih]

/-- C10: the update and delete routes touch only the single task matching
both the requested id and the authenticated creator; every other document —
in particular a parent whose subtasks sequence references the task — is left
exactly as it was.  Hence setting a task Done through the update route never
propagates Done to its parent (the propagation hook runs only on the save
path), and deleting a linked subtask through the plain delete route leaves
its id dangling in the parent's subtasks sequence. -/
theorem C10_update_delete_frame (store : List Task) (id uid : Nat)
    (input : TaskInput) (t : Task) :
    ((updateTask store id uid input).1 = Outcome.ok t → t.id = id ∧ t.creator = uid) ∧
    ((deleteTask store id uid).1 = Outcome.ok t → t.id = id ∧ t.creator = uid) ∧
    (∀ s ∈ store, ¬(s.id = id ∧ s.creator = uid) → s ∈ (updateTask store id uid input).2) ∧
    (∀ s ∈ store, ¬(s.id = id ∧ s.creator = uid) → s ∈ (deleteTask store id uid).2) ∧
    (∀ p ∈ store, p.id ≠ id → id ∈ p.subtasks →
      p ∈ (updateTask store id uid input).2 ∧ p ∈ (deleteTask store id uid).2) := by
  have h3 : ∀ s ∈ store, ¬(s.id = id ∧ s.creator = uid) →
      s ∈ (updateTask store id uid input).2 := by
    intro s hs hne
    unfold updateTask
    cases hv : validateTask input with
    | error e => exact hs
    | ok v =>
      cases hf : findOwned store id uid with
      | none => exact hs
      | some old => exact mem_replaceOwned_of_ne hs hne
  have h4 : ∀ s ∈ store, ¬(s.id = id ∧ s.creator = uid) →
      s ∈ (deleteTask store id uid).2 := by
    intro s hs hne
    unfold deleteTask
    cases hf : findOwned store id uid with
    | none => exact hs
    | some old => exact mem_removeOwned_of_ne hs hne
  refine ⟨?_, ?_, h3, h4, ?_⟩
  · intro h
    unfold updateTask at h
    cases hv : validateTask input with
    | error e => rw [hv] at h; simp at h
    | ok v =>
      rw [hv] at h
      cases hf : findOwned store id uid with
      | none => rw [hf] at h; simp at h
      | some old =>
        rw [hf] at h
        simp only [Outcome.ok.injEq] at h
        rw [← h]
        exact ⟨(findOwned_prop hf).1, (findOwned_prop hf).2.1⟩
  · intro h
    unfold deleteTask at h
    cases hf : findOwned store id uid with
    | none => rw [hf] at h; simp at h
    | some old =>
      rw [hf] at h
      simp only [Outcome.ok.injEq] at h
      rw [← h]
      exact ⟨(findOwned_prop hf).1, (findOwned_prop hf).2.1⟩
  · intro p hp hpid hsub
    exact ⟨h3 p hp (fun hc => hpid hc.1), h4 p hp (fun hc => hpid hc.1)⟩

/-- C10 witness: deleting the linked subtask 5 through the plain delete route
leaves the parent document, dangling reference included, in the store. -/
theorem C10_witness :
    (demoSub5.id = 5 ∧ demoSub5.creator = 1) ∧
      demoParentDangling ∈ (deleteTask [demoParentDangling, demoSub5] 5 1).2 :=
  ⟨(C10_update_delete_frame [demoParentDangling, demoSub5] 5 1 demoInput
      demoSub5).2.1 (by decide),
   ((C10_update_delete_frame [demoParentDangling, demoSub5] 5 1 demoInput
      demoSub5).2.2.2.2 demoParentDangling (by decide) (by decide) (by decide)).2⟩

/-- C4 counterexample: the parent holds the dangling subtask reference 5; no
task 5 owned by user 1 exists, so the deletion fails with NotFound — but the
handler has already removed the reference and persisted the parent, so the
store is mutated by the failing call. -/
theorem C4_counterexample :
    (deleteSubtask 2 [demoParentDangling] 1 5 1).1 =
        Outcome.notFound "Subtask not found or unauthorized" ∧
      (deleteSubtask 2 [demoParentDangling] 1 5 1).2 =
        [{ demoParentDangling with subtasks := [] }] ∧
      demoParentDangling.subtasks = [5] := by decide

/-- C4 amended: a failing subtask deletion mutates nothing when the parent
does not exist or when the subtask id is not in the parent's sequence; but in
the third NotFound case — the id is in the parent's sequence while no task
with that id is owned by the requester — the handler has already unlinked the
id and persisted the parent before failing, so the parent's subtasks sequence
shrinks by the removed entry. -/
theorem C4_not_found_cases (fuel : Nat) (store : List Task) (pid sid uid : Nat) :
    (findById store pid = none →
      deleteSubtask fuel store pid sid uid =
        (Outcome.notFound "Parent task not found", store)) ∧
    (∀ parent, findById store pid = some parent →
      parent.subtasks.contains sid = false →
      deleteSubtask fuel store pid sid uid =
        (Outcome.notFound "Subtask not found in parent task", store)) ∧
    (∀ parent, (store.map Task.id).Nodup → findById store pid = some parent →
      sid ∈ parent.subtasks → ¬parent.finish < parent.start →
      (∀ s ∈ store, ¬(s.id = sid ∧ s.creator = uid)) →
      (deleteSubtask fuel store pid sid uid).1 =
          Outcome.notFound "Subtask not found or unauthorized" ∧
        ∃ p₂, findById (deleteSubtask fuel store pid sid uid).2 pid = some p₂ ∧
          p₂.subtasks = parent.subtasks.erase sid ∧
          p₂.subtasks.length + 1 = parent.subtasks.length) := by
  refine ⟨?_, ?_, ?_⟩
  · intro h
    unfold deleteSubtask
    rw [h]
  · intro parent hfp hc
    unfold deleteSubtask
    rw [hfp]
    dsimp only
    rw [if_neg (by rw [hc]; simp)]
  · intro parent hnd hfp hsid hfin hnone
    have hpid : parent.id = pid := (findById_prop hfp).1
    subst hpid
    have hpmem : parent ∈ store := (findById_prop hfp).2
    have hmap : ((replaceById store parent.id
        { parent with subtasks := parent.subtasks.erase sid }).map Task.id) =
          store.map Task.id :=
      map_id_replaceById rfl
    have hnd₂ : ((replaceById store parent.id
        { parent with subtasks := parent.subtasks.erase sid }).map Task.id).Nodup := by
      rw [hmap]
      exact hnd
    have hforall := hook_forall₂ fuel
      (replaceById store parent.id { parent with subtasks := parent.subtasks.erase sid })
      { parent with subtasks := parent.subtasks.erase sid } hnd₂
    have hnone₃ : findOwned
        (postSaveHook fuel
          (replaceById store parent.id { parent with subtasks := parent.subtasks.erase sid })
          { parent with subtasks := parent.subtasks.erase sid }) sid uid = none := by
      rw [findOwned, List.find?_eq_none]
      intro b hb hbpred
      have hb2 : b.id = sid ∧ b.creator = uid := by
        rw [Bool.and_eq_true] at hbpred
        exact ⟨beq_iff_eq.mp hbpred.1, beq_iff_eq.mp hbpred.2⟩
      obtain ⟨a, ha₂, hrel⟩ := mem_right_of_forall₂ hforall hb
      have ha2 : a.id = sid ∧ a.creator = uid :=
        ⟨by rw [← hookRel_id hrel]; exact hb2.1,
         by rw [← hookRel_creator hrel]; exact hb2.2⟩
      rcases mem_replaceById ha₂ with hmem | heq
      · exact hnone a hmem ha2
      · apply hnone parent hpmem
        refine ⟨?_, ?_⟩
        · have := ha2.1
          rw [heq] at this
          exact this
        · have := ha2.2
          rw [heq] at this
          exact this
    have hup : upsert store { parent with subtasks := parent.subtasks.erase sid } =
        replaceById store parent.id { parent with subtasks := parent.subtasks.erase sid } := by
      unfold upsert
      have hfi : findById store
          ({ parent with subtasks := parent.subtasks.erase sid } : Task).id = some parent := by
        show findById store parent.id = some parent
        exact hfp
      rw [hfi]
      simp only [Option.isSome_some, if_true]
    have hres : deleteSubtask fuel store parent.id sid uid =
        (Outcome.notFound "Subtask not found or unauthorized",
          postSaveHook fuel
            (replaceById store parent.id { parent with subtasks := parent.subtasks.erase sid })
            { parent with subtasks := parent.subtasks.erase sid }) := by
      unfold deleteSubtask
      rw [hfp]
      dsimp only
      rw [if_pos (by simpa using hsid)]
      unfold save
      rw [if_neg hfin, hup]
      dsimp only
      rw [hnone₃]
    rw [hres]
    refine ⟨rfl, ?_⟩
    have h1 : findById
        (replaceById store parent.id { parent with subtasks := parent.subtasks.erase sid })
          parent.id =
        some { parent with subtasks := parent.subtasks.erase sid } :=
      findById_replaceById_self hpmem
        (show ({ parent with subtasks := parent.subtasks.erase sid } : Task).id = parent.id
          from rfl)
    have hp₂mem : ({ parent with subtasks := parent.subtasks.erase sid } : Task) ∈
        replaceById store parent.id { parent with subtasks := parent.subtasks.erase sid } :=
      List.mem_of_find?_eq_some h1
    obtain ⟨b, hfb, hrel⟩ := findById_of_forall₂ hforall hnd₂ hp₂mem
    refine ⟨b, hfb, ?_, ?_⟩
    · rw [hookRel_subtasks hrel]
    · rw [hookRel_subtasks hrel]
      show (parent.subtasks.erase sid).length + 1 = parent.subtasks.length
      have hlen := List.length_erase_of_mem hsid
      have hpos := List.length_pos_of_mem hsid
      omega

/-- C4 amended witness: the three NotFound shapes on concrete stores — the
first two leave the store untouched, the third has already shrunk the
parent's sequence. -/
theorem C4_witness :
    deleteSubtask 1 [] 1 5 1 = (Outcome.notFound "Parent task not found", []) ∧
      deleteSubtask 1 [demoBase] 1 5 1 =
        (Outcome.notFound "Subtask not found in parent task", [demoBase]) ∧
      ((deleteSubtask 2 [demoParentDangling] 1 5 1).1 =
          Outcome.notFound "Subtask not found or unauthorized" ∧
        ∃ p₂, findById (deleteSubtask 2 [demoParentDangling] 1 5 1).2 1 = some p₂ ∧
          p₂.subtasks = demoParentDangling.subtasks.erase 5 ∧
          p₂.subtasks.length + 1 = demoParentDangling.subtasks.length) :=
  ⟨(C4_not_found_cases 1 [] 1 5 1).1 rfl,
   (C4_not_found_cases 1 [demoBase] 1 5 1).2.1 demoBase rfl (by decide),
   (C4_not_found_cases 2 [demoParentDangling] 1 5 1).2.2 demoParentDangling
     (by decide) rfl (by decide) (by decide) (by decide)⟩

/-- C3: when a task is saved with status Done and the post-save hook finds
the parent whose subtasks sequence contains it, then: if every subtask
document of that parent is Done, the parent's status is set to Done and
persisted; if at least one subtask document is not Done, the store — and in
particular the parent's status — is left unchanged. -/
theorem C3_parent_propagation (store : List Task) (t parent : Task) (n : Nat)
    (hnd : (store.map Task.id).Nodup)
    (hdone : t.status = Status.done)
    (hfind : store.find? (fun p => p.subtasks.contains t.id) = some parent)
    (hval : ¬parent.finish < parent.start) :
    ((∀ s ∈ store, s.id ∈ parent.subtasks → s.status = Status.done) →
      ∃ p₂, findById (postSaveHook (n + 1) store t) parent.id = some p₂ ∧
        p₂.status = Status.done) ∧
    ((∃ s ∈ store, s.id ∈ parent.subtasks ∧ s.status ≠ Status.done) →
      postSaveHook (n + 1) store t = store) := by
  constructor
  · intro hall
    have hc : countUnfinished store parent = 0 :=
      (countUnfinished_eq_zero_iff store parent).mpr hall
    rw [postSaveHook, if_pos (by simp [hdone]), hfind]
    dsimp only
    rw [if_pos (by simpa using hc), if_neg hval]
    have hpmem : parent ∈ store := List.mem_of_find?_eq_some hfind
    have hmap : ((replaceById store parent.id
        { parent with status := Status.done }).map Task.id) = store.map Task.id :=
      map_id_replaceById rfl
    have hnd₂ : ((replaceById store parent.id
        { parent with status := Status.done }).map Task.id).Nodup := by
      rw [hmap]
      exact hnd
    have h1 : findById (replaceById store parent.id { parent with status := Status.done })
        parent.id = some { parent with status := Status.done } :=
      findById_replaceById_self hpmem rfl
    have hp₂mem : ({ parent with status := Status.done } : Task) ∈
        replaceById store parent.id { parent with status := Status.done } :=
      List.mem_of_find?_eq_some h1
    obtain ⟨b, hfb, hrel⟩ :=
      findById_of_forall₂ (hook_forall₂ n _ _ hnd₂) hnd₂ hp₂mem
    exact ⟨b, hfb, hookRel_done hrel rfl⟩
  · intro ⟨s, hs, hmem, hne⟩
    have hcount : ¬(countUnfinished store parent == 0) = true := by
      simp only [beq_iff_eq]
      intro h0
      exact hne ((countUnfinished_eq_zero_iff store parent).mp h0 s hs hmem)
    rw [postSaveHook, if_pos (by simp [hdone]), hfind]
    dsimp only
    rw [if_neg hcount]

/-- C3 witness: with both subtasks Done the parent's status becomes Done;
with one subtask still Todo the store is unchanged. -/
theorem C3_witness :
    (∃ p₂, findById (postSaveHook 2 [demoParent23, demoSub2, demoSub3] demoSub2)
        demoParent23.id = some p₂ ∧ p₂.status = Status.done) ∧
      postSaveHook 2 [demoParent23, demoSub2, demoSub3Todo] demoSub2 =
        [demoParent23, demoSub2, demoSub3Todo] :=
  ⟨(C3_parent_propagation [demoParent23, demoSub2, demoSub3] demoSub2 demoParent23 1
      (by decide) rfl (by decide) (by decide)).1 (by decide),
   (C3_parent_propagation [demoParent23, demoSub2, demoSub3Todo] demoSub2 demoParent23 1
      (by decide) rfl (by decide) (by decide)).2 (by decide)⟩

/-- C7: the list route reports `ceil(total/limit)` pages, applies skip
`(page-1)*limit` and take `limit`, normalises absent or invalid page and
limit to the defaults 1 and 10 (both always at least 1), and the task
sequences returned across pages 1 through totalPages concatenate exactly to
the owner's sorted task sequence — a permutation of the owner's full task
set — with no duplicate ids when the store's ids are distinct. -/
theorem C7_list_pagination (store : List Task) (uid : Nat) (pageQ limitQ : Option Int) :
    (1 ≤ (listTasks store uid pageQ limitQ).page ∧
      1 ≤ (listTasks store uid pageQ limitQ).limit) ∧
    (pageQ = none → (listTasks store uid pageQ limitQ).page = 1) ∧
    (limitQ = none → (listTasks store uid pageQ limitQ).limit = 10) ∧
    ((listTasks store uid pageQ limitQ).total ≤
        (listTasks store uid pageQ limitQ).totalPages *
          (listTasks store uid pageQ limitQ).limit ∧
      (listTasks store uid pageQ limitQ).totalPages *
          (listTasks store uid pageQ limitQ).limit <
        (listTasks store uid pageQ limitQ).total +
          (listTasks store uid pageQ limitQ).limit) ∧
    ((listTasks store uid pageQ limitQ).tasks =
      ((sortedOwned store uid).drop
        (((listTasks store uid pageQ limitQ).page - 1) *
          (listTasks store uid pageQ limitQ).limit)).take
        (listTasks store uid pageQ limitQ).limit) ∧
    (((List.range (listTasks store uid pageQ limitQ).totalPages).map
        (fun (p : Nat) => (listTasks store uid (some ((p : Int) + 1)) limitQ).tasks)).flatten =
      sortedOwned store uid) ∧
    ((sortedOwned store uid).Perm (store.filter (fun t => t.creator == uid))) ∧
    ((store.map Task.id).Nodup →
      ((((List.range (listTasks store uid pageQ limitQ).totalPages).map
        (fun (p : Nat) => (listTasks store uid (some ((p : Int) + 1)) limitQ).tasks)).flatten).map
          Task.id).Nodup) := by
  have hL1 : 1 ≤ normLimit limitQ := by
    cases limitQ with
    | none => simp [normLimit]
    | some l =>
      show 1 ≤ (if l < 1 then 10 else l.toNat)
      by_cases hl : l < 1
      · rw [if_pos hl]
        omega
      · rw [if_neg hl]
        omega
  have hP1 : 1 ≤ normPage pageQ := by
    cases pageQ with
    | none => simp [normPage]
    | some p =>
      show 1 ≤ (if p < 1 then 1 else p.toNat)
      by_cases hp : p < 1
      · rw [if_pos hp]
      · rw [if_neg hp]
        omega
  have hL0 : 0 < normLimit limitQ := hL1
  have hperm : (sortedOwned store uid).Perm (store.filter (fun t => t.creator == uid)) :=
    List.perm_insertionSort taskOrder _
  have hnorm : ∀ p : Nat, normPage (some ((p : Int) + 1)) = p + 1 := by
    intro p
    show (if ((p : Int) + 1) < 1 then 1 else ((p : Int) + 1).toNat) = p + 1
    rw [if_neg (by omega)]
    omega
  have hF : (((List.range (listTasks store uid pageQ limitQ).totalPages).map
      (fun (p : Nat) => (listTasks store uid (some ((p : Int) + 1)) limitQ).tasks)).flatten =
      sortedOwned store uid) := by
    have hmapeq : ((List.range (listTasks store uid pageQ limitQ).totalPages).map
        (fun (p : Nat) => (listTasks store uid (some ((p : Int) + 1)) limitQ).tasks)) =
        ((List.range
            (ceilDivNat (sortedOwned store uid).length (normLimit limitQ))).map
          (fun p => (((sortedOwned store uid).drop (p * normLimit limitQ)).take
            (normLimit limitQ)))) := by
      have hlen : (store.filter (fun t => t.creator == uid)).length =
          (sortedOwned store uid).length := hperm.length_eq.symm
      have hrange : (listTasks store uid pageQ limitQ).totalPages =
          ceilDivNat (sortedOwned store uid).length (normLimit limitQ) := by
        show ceilDivNat (store.filter (fun t => t.creator == uid)).length
            (normLimit limitQ) = _
        rw [hlen]
      rw [hrange]
      refine List.map_congr_left ?_
      intro p _
      show ((sortedOwned store uid).drop
          ((normPage (some ((p : Int) + 1)) - 1) * normLimit limitQ)).take
          (normLimit limitQ) = _
      rw [hnorm p]
      simp only [Nat.add_sub_cancel]
    rw [hmapeq]
    exact pagesJoin (sortedOwned store uid).length (sortedOwned store uid) le_rfl hL0
  refine ⟨⟨hP1, hL1⟩, ?_, ?_, ceilDivNat_bounds hL0, rfl, hF, hperm, ?_⟩
  · intro h
    subst h
    rfl
  · intro h
    subst h
    rfl
  · intro hnd
    rw [hF]
    have h1 : ((store.filter (fun t => t.creator == uid)).map Task.id).Nodup :=
      List.Nodup.sublist (List.Sublist.map Task.id (List.filter_sublist store)) hnd
    have h2 : ((sortedOwned store uid).map Task.id).Perm
        ((store.filter (fun t => t.creator == uid)).map Task.id) :=
      hperm.map Task.id
    exact h2.nodup_iff.mpr h1

/-- C7 witness: concrete defaults and a concrete duplicate-free page sweep. -/
theorem C7_witness :
    (listTasks [demoHigh, demoMed] 1 none none).page = 1 ∧
      (listTasks [demoHigh, demoMed] 1 none none).limit = 10 ∧
      ((((List.range (listTasks [demoHigh, demoMed] 1 none none).totalPages).map
        (fun (p : Nat) => (listTasks [demoHigh, demoMed] 1 (some ((p : Int) + 1)) none).tasks)).flatten).map
          Task.id).Nodup :=
  ⟨(C7_list_pagination [demoHigh, demoMed] 1 none none).2.1 rfl,
   (C7_list_pagination [demoHigh, demoMed] 1 none none).2.2.1 rfl,
   (C7_list_pagination [demoHigh, demoMed] 1 none none).2.2.2.2.2.2.2 (by decide)⟩

end TaskFlow
